import Mathlib

/-!
Verification of the GrimSwap circuits SDK (TypeScript sources) against its
natural-language specification.  The TypeScript data model and operations are
shallowly embedded: bigint field elements become `Nat`, JavaScript sparse
arrays become functions into `Option Nat`, thrown exceptions become `Option`
results.  External cryptographic libraries (Poseidon, keccak256, secp256k1)
are parameters of the embedding: the Poseidon hash is an arbitrary function
`hash : Nat → Nat → Nat` (assumptions such as collision resistance appear as
explicit hypotheses of the theorems), and the secp256k1 subgroup generated by
the base point is represented by the discrete logarithm of each point, i.e.
by `ZMod N` where `N` is the group order: point addition is `+`, scalar
multiplication is `*`, and the base point `G` is `1`.
-/

namespace GrimSwap

/-- Zero value for empty leaves, from `src/sdk/merkle.ts` (`ZERO_VALUE`). -/
def ZERO_VALUE : Nat :=
  21663839004416932945382355908790599225266501822907911457504978515578255421292

/-- Default tree height, from `src/sdk/merkle.ts` (`MERKLE_TREE_HEIGHT`). -/
def MERKLE_TREE_HEIGHT : Nat := 20

/-- The zero subtree values: `zeros[0] = ZERO_VALUE` and
`zeros[i] = hash zeros[i-1] zeros[i-1]` (the loop of `MerkleTree.initialize`). -/
def zeroAt (hash : Nat → Nat → Nat) : Nat → Nat
  | 0 => ZERO_VALUE
  | i + 1 => hash (zeroAt hash i) (zeroAt hash i)

/-- The per-level layer arrays of the TypeScript `MerkleTree`; a JavaScript
sparse-array read `layers[level][j]` yields `none` for a missing entry. -/
def LayerFun : Type := Nat → Nat → Option Nat

/-- Point write `layers[a][b] = v`. -/
def writeLayer (f : LayerFun) (a b v : Nat) : LayerFun :=
  fun x y => if x = a ∧ y = b then some v else f x y

/-- State of the TypeScript `MerkleTree` class. -/
structure MerkleTreeState where
  height : Nat
  leaves : List Nat
  zeros : List Nat
  layers : LayerFun

/-- `new MerkleTree(height)`. -/
def mkMerkleTree (height : Nat) : MerkleTreeState :=
  { height := height, leaves := [], zeros := [], layers := fun _ _ => none }

/-- `MerkleTree.initialize()`: precompute the zeros list and reset the layer
arrays to empty ones. -/
def initTree (hash : Nat → Nat → Nat) (t : MerkleTreeState) : MerkleTreeState :=
  { t with zeros := (List.range (t.height + 1)).map (zeroAt hash),
           layers := fun _ _ => none }

/-- The `for level` loop of `MerkleTree.updateTree`: `remaining` iterations
starting at `level`, current node `idx` with value `val`; the sibling read
`layers[level][siblingIndex] ?? zeros[level]` defaults to the zero of the
level. -/
def updateFrom (hash : Nat → Nat → Nat) (zeros : List Nat) :
    Nat → LayerFun → Nat → Nat → Nat → LayerFun
  | 0, layers, _, _, _ => layers
  | r + 1, layers, level, idx, val =>
    let sibIdx := if idx % 2 = 0 then idx + 1 else idx - 1
    let sibling := (layers level sibIdx).getD (zeros.getD level 0)
    let left := if idx % 2 = 0 then val else sibling
    let right := if idx % 2 = 0 then sibling else val
    let parent := hash left right
    updateFrom hash zeros r (writeLayer layers (level + 1) (idx / 2) parent)
      (level + 1) (idx / 2) parent

/-- `MerkleTree.updateTree(index)`. -/
def MerkleTreeState.updateTree (hash : Nat → Nat → Nat) (t : MerkleTreeState)
    (index : Nat) : MerkleTreeState :=
  let val := t.leaves.getD index 0
  { t with layers :=
      updateFrom hash t.zeros t.height (writeLayer t.layers 0 index val) 0 index val }

/-- `MerkleTree.insert(leaf)`: runs the zero precomputation if it never ran,
appends the leaf and recomputes the authentication path; returns the new
state together with the index of the inserted leaf. -/
def MerkleTreeState.insert (hash : Nat → Nat → Nat) (t : MerkleTreeState)
    (leaf : Nat) : MerkleTreeState × Nat :=
  let t := if t.zeros.length = 0 then initTree hash t else t
  let index := t.leaves.length
  let t := { t with leaves := t.leaves ++ [leaf] }
  (t.updateTree hash index, index)

/-- Insert a list of leaves in order (the loop of `buildMerkleTree`). -/
def insertMany (hash : Nat → Nat → Nat) (t : MerkleTreeState) (ls : List Nat) :
    MerkleTreeState :=
  ls.foldl (fun s l => (s.insert hash l).1) t

/-- `buildMerkleTree(leaves)`: initialize then insert sequentially. -/
def buildMerkleTree (hash : Nat → Nat → Nat) (leaves : List Nat) : MerkleTreeState :=
  insertMany hash (initTree hash (mkMerkleTree MERKLE_TREE_HEIGHT)) leaves

/-- `MerkleTree.leafCount`. -/
def MerkleTreeState.leafCount (t : MerkleTreeState) : Nat := t.leaves.length

/-- `MerkleTree.getRoot()`; JavaScript truthiness: the cached root is returned
only when present and nonzero, otherwise `zeros[height]` is read — which is
`undefined` (here `none`) when the tree was never initialized. -/
def MerkleTreeState.getRoot (t : MerkleTreeState) : Option Nat :=
  match t.layers t.height 0 with
  | some v => if v ≠ 0 then some v else t.zeros[t.height]?
  | none => t.zeros[t.height]?

/-- The TypeScript `MerkleProof` record; `root` is an `Option` because
`getRoot` yields `undefined` on a never-initialized empty tree. -/
structure MerkleProof where
  root : Option Nat
  pathElements : List Nat
  pathIndices : List Nat
deriving DecidableEq

/-- The path-collection loop of `MerkleTree.getProof`. -/
def proofPath (layers : LayerFun) (zeros : List Nat) :
    Nat → Nat → Nat → List Nat × List Nat
  | 0, _, _ => ([], [])
  | r + 1, level, idx =>
    let sibIdx := if idx % 2 = 0 then idx + 1 else idx - 1
    let sibling := (layers level sibIdx).getD (zeros.getD level 0)
    let rest := proofPath layers zeros r (level + 1) (idx / 2)
    (sibling :: rest.1, (if idx % 2 = 0 then 0 else 1) :: rest.2)

/-- `MerkleTree.getProof(leafIndex)`: `none` models the thrown
`"Leaf index out of bounds"` error. -/
def MerkleTreeState.getProof (t : MerkleTreeState) (leafIndex : Nat) :
    Option MerkleProof :=
  if leafIndex ≥ t.leaves.length then none
  else
    let p := proofPath t.layers t.zeros t.height 0 leafIndex
    some { root := t.getRoot, pathElements := p.1, pathIndices := p.2 }

/-- The folding loop of `verifyMerkleProof`; the direction flag is consumed
positionally (`pathIndices[i] === 0` is false when the entry is missing). -/
def verifyFold (hash : Nat → Nat → Nat) : List Nat → List Nat → Nat → Nat
  | [], _, cur => cur
  | e :: es, idxs, cur =>
    verifyFold hash es idxs.tail (if idxs.headD 1 = 0 then hash cur e else hash e cur)

/-- `verifyMerkleProof(leaf, proof)`: fold the path and compare with the root. -/
def verifyMerkleProof (hash : Nat → Nat → Nat) (leaf : Nat) (p : MerkleProof) : Bool :=
  decide (some (verifyFold hash p.pathElements p.pathIndices leaf) = p.root)

/-- Specification value of the node at `(level, j)` of the incremental tree
holding the leaf list `L` (leaves beyond the list are the zero value). -/
def subRoot (hash : Nat → Nat → Nat) (L : List Nat) : Nat → Nat → Nat
  | 0, j => L.getD j ZERO_VALUE
  | level + 1, j => hash (subRoot hash L level (2 * j)) (subRoot hash L level (2 * j + 1))

/-- The zeros list produced by `MerkleTree.initialize` for height `H`. -/
def zerosList (hash : Nat → Nat → Nat) (H : Nat) : List Nat :=
  (List.range (H + 1)).map (zeroAt hash)

/-- All layer entries, read with the per-level zero default, agree with the
specification node values for the leaf list `L`. -/
def layersOK (hash : Nat → Nat → Nat) (layers : LayerFun) (L : List Nat) (H : Nat) : Prop :=
  ∀ level j, level ≤ H → (layers level j).getD (zeroAt hash level) = subRoot hash L level j

/-- Invariant tying a reachable tree state to the list of inserted leaves. -/
def goodTree (hash : Nat → Nat → Nat) (H : Nat) (t : MerkleTreeState) (L : List Nat) : Prop :=
  t.height = H ∧ t.leaves = L ∧ t.zeros = zerosList hash H ∧ layersOK hash t.layers L H

theorem zerosList_getD (hash : Nat → Nat → Nat) (H level : Nat) (h : level ≤ H) :
    (zerosList hash H).getD level 0 = zeroAt hash level := by
  simp [zerosList, List.getD_eq_getElem?_getD, List.getElem?_map, List.getElem?_range,
    Nat.lt_succ_of_le h]

theorem zerosList_getElem (hash : Nat → Nat → Nat) (H level : Nat) (h : level ≤ H) :
    (zerosList hash H)[level]? = some (zeroAt hash level) := by
  simp [zerosList, List.getElem?_map, List.getElem?_range, Nat.lt_succ_of_le h]

theorem zerosList_length (hash : Nat → Nat → Nat) (H : Nat) :
    (zerosList hash H).length = H + 1 := by
  simp [zerosList]

theorem subRoot_congr (hash : Nat → Nat → Nat) (L₁ L₂ : List Nat) : ∀ level j,
    (∀ k, k < 2 ^ level →
      L₁.getD (j * 2 ^ level + k) ZERO_VALUE = L₂.getD (j * 2 ^ level + k) ZERO_VALUE) →
    subRoot hash L₁ level j = subRoot hash L₂ level j
  | 0, j, h => by
    have := h 0 (by simp)
    simpa [subRoot] using this
  | level + 1, j, h => by
    have hl : subRoot hash L₁ level (2 * j) = subRoot hash L₂ level (2 * j) := by
      refine subRoot_congr hash L₁ L₂ level (2 * j) ?_
      intro k hk
      have he : 2 * j * 2 ^ level + k = j * 2 ^ (level + 1) + k := by
        rw [pow_succ]; ring
      have := h k (by calc k < 2 ^ level := hk
                          _ ≤ 2 ^ (level + 1) := Nat.pow_le_pow_right (by omega) (by omega))
      rw [he]; exact this
    have hr : subRoot hash L₁ level (2 * j + 1) = subRoot hash L₂ level (2 * j + 1) := by
      refine subRoot_congr hash L₁ L₂ level (2 * j + 1) ?_
      intro k hk
      have he : (2 * j + 1) * 2 ^ level + k = j * 2 ^ (level + 1) + (2 ^ level + k) := by
        rw [pow_succ]; ring
      have hlt : 2 ^ level + k < 2 ^ (level + 1) := by
        rw [pow_succ]; omega
      have := h (2 ^ level + k) hlt
      rw [he]; exact this
    simp [subRoot, hl, hr]

theorem subRoot_of_ge (hash : Nat → Nat → Nat) (L : List Nat) : ∀ level j,
    L.length ≤ j * 2 ^ level → subRoot hash L level j = zeroAt hash level
  | 0, j, h => by
    simp only [pow_zero, Nat.mul_one] at h
    simp [subRoot, zeroAt, List.getD_eq_getElem?_getD, List.getElem?_eq_none h]
  | level + 1, j, h => by
    have h1 : L.length ≤ 2 * j * 2 ^ level := by
      calc L.length ≤ j * 2 ^ (level + 1) := h
        _ = 2 * j * 2 ^ level := by rw [pow_succ]; ring
    have h2 : L.length ≤ (2 * j + 1) * 2 ^ level := by
      calc L.length ≤ 2 * j * 2 ^ level := h1
        _ ≤ (2 * j + 1) * 2 ^ level := Nat.mul_le_mul_right _ (by omega)
    simp [subRoot, subRoot_of_ge hash L level (2 * j) h1,
      subRoot_of_ge hash L level (2 * j + 1) h2, zeroAt]

theorem subRoot_append_ne (hash : Nat → Nat → Nat) (L : List Nat) (x : Nat)
    (level j : Nat) (hj : j ≠ L.length / 2 ^ level) :
    subRoot hash (L ++ [x]) level j = subRoot hash L level j := by
  refine subRoot_congr hash (L ++ [x]) L level j ?_
  intro k hk
  have hp : 0 < 2 ^ level := Nat.pos_pow_of_pos level (by omega)
  have hne : j * 2 ^ level + k ≠ L.length := by
    intro he
    apply hj
    rw [← he, Nat.mul_comm j (2 ^ level), Nat.mul_add_div hp, Nat.div_eq_of_lt hk]
    omega
  rcases Nat.lt_or_ge (j * 2 ^ level + k) L.length with hlt | hge
  · rw [List.getD_eq_getElem?_getD, List.getD_eq_getElem?_getD,
      List.getElem?_append_left hlt]
  · have hge' : (L ++ [x]).length ≤ j * 2 ^ level + k := by
      simp only [List.length_append, List.length_singleton]; omega
    rw [List.getD_eq_getElem?_getD, List.getD_eq_getElem?_getD,
      List.getElem?_eq_none hge', List.getElem?_eq_none hge]

theorem updateFrom_spec (hash : Nat → Nat → Nat) (H : Nat) (L : List Nat) (x : Nat) :
    ∀ (r level : Nat) (layers : LayerFun),
    level + r = H →
    (∀ ℓ j, ℓ ≤ H →
      (layers ℓ j).getD (zeroAt hash ℓ) =
        if ℓ ≤ level ∨ j ≠ L.length / 2 ^ ℓ then subRoot hash (L ++ [x]) ℓ j
        else subRoot hash L ℓ j) →
    ∀ ℓ j, ℓ ≤ H →
      ((updateFrom hash (zerosList hash H) r layers level (L.length / 2 ^ level)
          (subRoot hash (L ++ [x]) level (L.length / 2 ^ level))) ℓ j).getD (zeroAt hash ℓ) =
        subRoot hash (L ++ [x]) ℓ j
  | 0, level, layers, hlev, hP, ℓ, j, hℓ => by
    have := hP ℓ j hℓ
    rw [if_pos (Or.inl (by omega))] at this
    simpa [updateFrom] using this
  | r + 1, level, layers, hlev, hP, ℓ, j, hℓ => by
    have hlevH : level ≤ H := by omega
    set idx := L.length / 2 ^ level with hidx
    have hdiv : idx / 2 = L.length / 2 ^ (level + 1) := by
      rw [hidx, Nat.div_div_eq_div_mul, ← pow_succ]
    have hsib : ∀ s, s ≠ idx →
        (layers level s).getD (zeroAt hash level) = subRoot hash (L ++ [x]) level s := by
      intro s hs
      have := hP level s hlevH
      rwa [if_pos (Or.inl le_rfl)] at this
    -- the value written at level+1
    have hparent : ∀ sib lft rgt,
        sib = (layers level (if idx % 2 = 0 then idx + 1 else idx - 1)).getD
          ((zerosList hash H).getD level 0) →
        lft = (if idx % 2 = 0 then subRoot hash (L ++ [x]) level idx else sib) →
        rgt = (if idx % 2 = 0 then sib else subRoot hash (L ++ [x]) level idx) →
        hash lft rgt = subRoot hash (L ++ [x]) (level + 1) (idx / 2) := by
      intro sib lft rgt hsibv hlft hrgt
      rw [zerosList_getD hash H level hlevH] at hsibv
      by_cases hpar : idx % 2 = 0
      · have hsplit : idx = 2 * (idx / 2) := by omega
        have hs : sib = subRoot hash (L ++ [x]) level (idx + 1) := by
          rw [hsibv, if_pos hpar]; exact hsib (idx + 1) (by omega)
        rw [hlft, hrgt, if_pos hpar, if_pos hpar, hs]
        have e1 : 2 * (idx / 2) = idx := hsplit.symm
        have e2 : 2 * (idx / 2) + 1 = idx + 1 := by omega
        simp only [subRoot, e1, e2]
      · have hsplit : idx = 2 * (idx / 2) + 1 := by omega
        have hs : sib = subRoot hash (L ++ [x]) level (idx - 1) := by
          rw [hsibv, if_neg hpar]; exact hsib (idx - 1) (by omega)
        rw [hlft, hrgt, if_neg hpar, if_neg hpar, hs]
        have e1 : 2 * (idx / 2) = idx - 1 := by omega
        have e2 : 2 * (idx / 2) + 1 = idx := by omega
        simp only [subRoot]
        rw [e2, e1]
    have hP' : ∀ ℓ' j', ℓ' ≤ H →
        ((writeLayer layers (level + 1) (idx / 2)
            (subRoot hash (L ++ [x]) (level + 1) (idx / 2))) ℓ' j').getD (zeroAt hash ℓ') =
          if ℓ' ≤ level + 1 ∨ j' ≠ L.length / 2 ^ ℓ' then subRoot hash (L ++ [x]) ℓ' j'
          else subRoot hash L ℓ' j' := by
      intro ℓ' j' hℓ'
      by_cases hw : ℓ' = level + 1 ∧ j' = idx / 2
      · rcases hw with ⟨hw1, hw2⟩
        subst hw1; subst hw2
        simp [writeLayer]
      · simp only [writeLayer, if_neg hw]
        have hold := hP ℓ' j' hℓ'
        by_cases hcond : ℓ' ≤ level ∨ j' ≠ L.length / 2 ^ ℓ'
        · rw [if_pos hcond] at hold
          rw [hold, if_pos]
          rcases hcond with hc | hc
          · exact Or.inl (by omega)
          · exact Or.inr hc
        · rw [if_neg hcond] at hold
          push_neg at hcond
          have hgt : ¬ ℓ' ≤ level + 1 := by
            intro hle
            have heq : ℓ' = level + 1 := by omega
            exact hw ⟨heq, by rw [hcond.2, heq]; exact hdiv.symm⟩
          rw [if_neg (by push_neg; exact ⟨by omega, hcond.2⟩)]
          exact hold
    have hnext := updateFrom_spec hash H L x r (level + 1)
      (writeLayer layers (level + 1) (idx / 2)
        (subRoot hash (L ++ [x]) (level + 1) (idx / 2)))
      (by omega) hP' ℓ j hℓ
    rw [← hdiv] at hnext
    show ((updateFrom hash (zerosList hash H) (r + 1) layers level idx
        (subRoot hash (L ++ [x]) level idx)) ℓ j).getD (zeroAt hash ℓ) = _
    rw [updateFrom]
    have hpar := hparent _ _ _ rfl rfl rfl
    simp only [hpar]
    exact hnext

theorem goodTree_insert (hash : Nat → Nat → Nat) (H : Nat) (t : MerkleTreeState)
    (L : List Nat) (x : Nat) (hg : goodTree hash H t L) :
    goodTree hash H (t.insert hash x).1 (L ++ [x]) := by
  obtain ⟨hh, hl, hz, hOK⟩ := hg
  have hzlen : t.zeros.length = H + 1 := by rw [hz, zerosList_length]
  have hstep : (t.insert hash x).1 =
      MerkleTreeState.updateTree hash { t with leaves := t.leaves ++ [x] } t.leaves.length := by
    simp only [MerkleTreeState.insert]
    rw [if_neg (by omega)]
  have hval : (L ++ [x]).getD L.length 0 = x := by
    rw [List.getD_eq_getElem?_getD, List.getElem?_concat_length]
    rfl
  have hx0 : subRoot hash (L ++ [x]) 0 (L.length / 2 ^ 0) = x := by
    simp only [pow_zero, Nat.div_one, subRoot]
    rw [List.getD_eq_getElem?_getD, List.getElem?_concat_length]
    rfl
  have hP0 : ∀ ℓ j, ℓ ≤ H →
      ((writeLayer t.layers 0 L.length x) ℓ j).getD (zeroAt hash ℓ) =
        if ℓ ≤ 0 ∨ j ≠ L.length / 2 ^ ℓ then subRoot hash (L ++ [x]) ℓ j
        else subRoot hash L ℓ j := by
    intro ℓ j hℓ
    by_cases hw : ℓ = 0 ∧ j = L.length
    · rcases hw with ⟨hw1, hw2⟩
      subst hw1; subst hw2
      simp only [writeLayer, and_self, if_true, Option.getD_some, pow_zero, Nat.div_one]
      rw [if_pos (Or.inl le_rfl)]
      simp only [subRoot]
      rw [List.getD_eq_getElem?_getD, List.getElem?_concat_length]
      rfl
    · simp only [writeLayer, if_neg hw]
      have hold := hOK ℓ j hℓ
      by_cases hc : ℓ ≤ 0 ∨ j ≠ L.length / 2 ^ ℓ
      · rw [if_pos hc, hold]
        rcases hc with hc | hc
        · have hℓ0 : ℓ = 0 := by omega
          have hjne : j ≠ L.length := fun hje => hw ⟨hℓ0, hje⟩
          exact (subRoot_append_ne hash L x ℓ j
            (by rw [hℓ0]; simpa using hjne)).symm
        · exact (subRoot_append_ne hash L x ℓ j hc).symm
      · rw [if_neg hc]
        exact hold
  refine ⟨?_, ?_, ?_, ?_⟩ <;> rw [hstep]
  · simp [MerkleTreeState.updateTree, hh]
  · simp [MerkleTreeState.updateTree, hl]
  · simp [MerkleTreeState.updateTree, hz]
  · intro ℓ j hℓ
    have hmain := updateFrom_spec hash H L x H 0 (writeLayer t.layers 0 L.length x)
      (by omega) hP0 ℓ j hℓ
    rw [hx0] at hmain
    simp only [pow_zero, Nat.div_one] at hmain
    simp only [MerkleTreeState.updateTree, hval, hl, hz, hh]
    exact hmain

theorem insertMany_good (hash : Nat → Nat → Nat) (H : Nat) (L : List Nat) :
    goodTree hash H (insertMany hash (initTree hash (mkMerkleTree H)) L) L := by
  induction L using List.reverseRecOn with
  | nil =>
    refine ⟨rfl, rfl, rfl, ?_⟩
    intro level j hlev
    simp only [insertMany, List.foldl_nil, initTree, mkMerkleTree, Option.getD_none]
    exact (subRoot_of_ge hash [] level j (by simp)).symm
  | append_singleton L x ih =>
    have hsplit : insertMany hash (initTree hash (mkMerkleTree H)) (L ++ [x]) =
        ((insertMany hash (initTree hash (mkMerkleTree H)) L).insert hash x).1 := by
      simp [insertMany, List.foldl_append]
    rw [hsplit]
    exact goodTree_insert hash H _ L x ih

theorem verifyFold_path (hash : Nat → Nat → Nat) (H : Nat) (layers : LayerFun)
    (L : List Nat) (hOK : layersOK hash layers L H) :
    ∀ r level idx, level + r ≤ H →
      verifyFold hash (proofPath layers (zerosList hash H) r level idx).1
        (proofPath layers (zerosList hash H) r level idx).2
        (subRoot hash L level idx) =
      subRoot hash L (level + r) (idx / 2 ^ r)
  | 0, level, idx, h => by simp [proofPath, verifyFold]
  | r + 1, level, idx, h => by
    have hlevH : level ≤ H := by omega
    have ih := verifyFold_path hash H layers L hOK r (level + 1) (idx / 2) (by omega)
    have e3 : level + 1 + r = level + (r + 1) := by omega
    have e4 : idx / 2 / 2 ^ r = idx / 2 ^ (r + 1) := by
      rw [Nat.div_div_eq_div_mul, ← pow_succ']
    rw [e3, e4] at ih
    by_cases hpar : idx % 2 = 0
    · simp only [proofPath, verifyFold, if_pos hpar, List.headD_cons, List.tail_cons,
        if_pos rfl]
      rw [zerosList_getD hash H level hlevH, hOK level (idx + 1) hlevH]
      have hcomb : hash (subRoot hash L level idx) (subRoot hash L level (idx + 1)) =
          subRoot hash L (level + 1) (idx / 2) := by
        have e1 : 2 * (idx / 2) = idx := by omega
        have e2 : 2 * (idx / 2) + 1 = idx + 1 := by omega
        simp only [subRoot]
        rw [e2, e1]
      rw [hcomb]
      exact ih
    · simp only [proofPath, verifyFold, if_neg hpar, List.headD_cons, List.tail_cons,
        if_neg (by omega : ¬(1 : Nat) = 0)]
      rw [zerosList_getD hash H level hlevH, hOK level (idx - 1) hlevH]
      have hcomb : hash (subRoot hash L level (idx - 1)) (subRoot hash L level idx) =
          subRoot hash L (level + 1) (idx / 2) := by
        have e1 : 2 * (idx / 2) = idx - 1 := by omega
        have e2 : 2 * (idx / 2) + 1 = idx := by omega
        simp only [subRoot]
        rw [e2, e1]
      rw [hcomb]
      exact ih

theorem verifyFold_injective (hash : Nat → Nat → Nat)
    (h1 : ∀ a, Function.Injective (hash a))
    (h2 : ∀ b, Function.Injective fun a => hash a b) :
    ∀ (es idxs : List Nat), Function.Injective fun c => verifyFold hash es idxs c
  | [], idxs => fun a b h => by simpa [verifyFold] using h
  | e :: es, idxs => fun a b h => by
    simp only [verifyFold] at h
    have hrec := verifyFold_injective hash h1 h2 es idxs.tail h
    by_cases hflag : idxs.headD 1 = 0
    · rw [if_pos hflag, if_pos hflag] at hrec
      exact h2 e hrec
    · rw [if_neg hflag, if_neg hflag] at hrec
      exact h1 e hrec

theorem getRoot_good (hash : Nat → Nat → Nat) (H : Nat) (t : MerkleTreeState)
    (L : List Nat) (hnz : ∀ a b, hash a b ≠ 0) (hH : 0 < H)
    (hg : goodTree hash H t L) : t.getRoot = some (subRoot hash L H 0) := by
  obtain ⟨hh, hl, hz, hOK⟩ := hg
  have hroot := hOK H 0 le_rfl
  have hne : subRoot hash L H 0 ≠ 0 := by
    obtain ⟨m, hm⟩ : ∃ m, H = m + 1 := ⟨H - 1, by omega⟩
    rw [hm]
    simp only [subRoot]
    exact hnz _ _
  simp only [MerkleTreeState.getRoot, hh, hz, zerosList_getElem hash H H le_rfl]
  rcases hcase : t.layers H 0 with _ | v
  · rw [hcase] at hroot
    simp only [Option.getD_none] at hroot
    simp [hcase, hroot]
  · rw [hcase] at hroot
    simp only [Option.getD_some] at hroot
    subst hroot
    simp [hcase, hne]

/-- C1: for every tree on which the zero precomputation has run and every
sequence of leaves inserted in order, and every `i < leafCount`,
`verifyMerkleProof(leaves[i], tree.getProof(i))` is true, and it is false
for every other leaf value.  The Poseidon hash is abstract; its collision
resistance is modelled by injectivity in each argument, and its outputs are
assumed nonzero (a zero output would defeat the JavaScript truthiness test
in `getRoot`). -/
theorem claim_C1_merkle_proofs (hash : Nat → Nat → Nat)
    (h1 : ∀ a, Function.Injective (hash a))
    (h2 : ∀ b, Function.Injective fun a => hash a b)
    (hnz : ∀ a b, hash a b ≠ 0)
    (L : List Nat) (hcap : L.length ≤ 2 ^ MERKLE_TREE_HEIGHT)
    (i : Nat) (hi : i < L.length) :
    ∃ p, (buildMerkleTree hash L).getProof i = some p ∧
      verifyMerkleProof hash (L.getD i 0) p = true ∧
      ∀ x, x ≠ L.getD i 0 → verifyMerkleProof hash x p = false := by
  have hg : goodTree hash MERKLE_TREE_HEIGHT (buildMerkleTree hash L) L :=
    insertMany_good hash MERKLE_TREE_HEIGHT L
  have hh := hg.1
  have hl := hg.2.1
  have hz := hg.2.2.1
  have hOK := hg.2.2.2
  have hroot : (buildMerkleTree hash L).getRoot =
      some (subRoot hash L MERKLE_TREE_HEIGHT 0) :=
    getRoot_good hash MERKLE_TREE_HEIGHT _ L hnz (by decide) hg
  have hleaf : subRoot hash L 0 i = L.getD i 0 := by
    simp only [subRoot]
    rw [List.getD_eq_getElem?_getD, List.getD_eq_getElem?_getD,
      List.getElem?_eq_getElem hi]
    rfl
  have hfold := verifyFold_path hash MERKLE_TREE_HEIGHT
    (buildMerkleTree hash L).layers L hOK MERKLE_TREE_HEIGHT 0 i (by omega)
  rw [zero_add, Nat.div_eq_of_lt (by omega : i < 2 ^ MERKLE_TREE_HEIGHT),
    ← hz, hleaf] at hfold
  refine ⟨⟨(buildMerkleTree hash L).getRoot,
      (proofPath (buildMerkleTree hash L).layers (buildMerkleTree hash L).zeros
        MERKLE_TREE_HEIGHT 0 i).1,
      (proofPath (buildMerkleTree hash L).layers (buildMerkleTree hash L).zeros
        MERKLE_TREE_HEIGHT 0 i).2⟩, ?_, ?_, ?_⟩
  · simp only [MerkleTreeState.getProof, hh]
    rw [if_neg (by rw [hl]; omega)]
  · simp only [verifyMerkleProof]
    rw [hfold, hroot]
    simp
  · intro x hx
    simp only [verifyMerkleProof, hroot]
    apply decide_eq_false
    intro heq
    have hfx : verifyFold hash
        (proofPath (buildMerkleTree hash L).layers (buildMerkleTree hash L).zeros
          MERKLE_TREE_HEIGHT 0 i).1
        (proofPath (buildMerkleTree hash L).layers (buildMerkleTree hash L).zeros
          MERKLE_TREE_HEIGHT 0 i).2 x = subRoot hash L MERKLE_TREE_HEIGHT 0 :=
      Option.some.inj heq
    have hxy : verifyFold hash
        (proofPath (buildMerkleTree hash L).layers (buildMerkleTree hash L).zeros
          MERKLE_TREE_HEIGHT 0 i).1
        (proofPath (buildMerkleTree hash L).layers (buildMerkleTree hash L).zeros
          MERKLE_TREE_HEIGHT 0 i).2 x =
        verifyFold hash
        (proofPath (buildMerkleTree hash L).layers (buildMerkleTree hash L).zeros
          MERKLE_TREE_HEIGHT 0 i).1
        (proofPath (buildMerkleTree hash L).layers (buildMerkleTree hash L).zeros
          MERKLE_TREE_HEIGHT 0 i).2 (L.getD i 0) := by
      rw [hfx, hfold]
    exact hx (verifyFold_injective hash h1 h2 _ _ hxy)

/-- Witness for C1 at a concrete injective, nonzero hash and a concrete tree. -/
theorem claim_C1_witness :
    ∃ p, (buildMerkleTree (fun a b => Nat.pair a b + 1) [5, 7]).getProof 0 = some p ∧
      verifyMerkleProof (fun a b => Nat.pair a b + 1) ([5, 7].getD 0 0) p = true ∧
      ∀ x, x ≠ [5, 7].getD 0 0 →
        verifyMerkleProof (fun a b => Nat.pair a b + 1) x p = false :=
  claim_C1_merkle_proofs (fun a b => Nat.pair a b + 1)
    (fun a x y h => by
      have h' : Nat.pair a x = Nat.pair a y := by simpa using h
      exact (Nat.pair_eq_pair.mp h').2)
    (fun b x y h => by
      have h' : Nat.pair x b = Nat.pair y b := by simpa using h
      exact (Nat.pair_eq_pair.mp h').1)
    (fun a b => by
      show Nat.pair a b + 1 ≠ 0
      omega)
    [5, 7] (by decide) 0 (by decide)

/-- C7 counterexample: on a freshly constructed tree on which `initialize()`
never ran, `getRoot()` returns `undefined` (modelled as `none`), not the
all-zero-tree root `zeros[20]` the claim promises. -/
theorem claim_C7_counterexample : (mkMerkleTree MERKLE_TREE_HEIGHT).getRoot = none := rfl

/-- C7 amended: once `initialize()` has run, a tree with no leaves returns the
all-zero-tree root `zeros[20]` from `getRoot()`; before `initialize()` has
ever run, `getRoot()` instead returns `undefined` (`none`). -/
theorem claim_C7_amended_empty_root (hash : Nat → Nat → Nat) :
    (initTree hash (mkMerkleTree MERKLE_TREE_HEIGHT)).getRoot =
        some (zeroAt hash MERKLE_TREE_HEIGHT) ∧
      (mkMerkleTree MERKLE_TREE_HEIGHT).getRoot = none := by
  constructor
  · simp only [MerkleTreeState.getRoot, initTree, mkMerkleTree]
    exact zerosList_getElem hash MERKLE_TREE_HEIGHT MERKLE_TREE_HEIGHT le_rfl
  · rfl

/-- C8: `getProof(index)` fails (throws, modelled as `none`) exactly when
`index ≥ leafCount`, on every tree built by inserting a list of leaves. -/
theorem claim_C8_getProof_bounds (hash : Nat → Nat → Nat) (L : List Nat) (index : Nat) :
    (buildMerkleTree hash L).getProof index = none ↔
      (buildMerkleTree hash L).leafCount ≤ index := by
  by_cases hc : (buildMerkleTree hash L).leaves.length ≤ index
  · simp [MerkleTreeState.getProof, MerkleTreeState.leafCount, ge_iff_le, hc]
  · simp [MerkleTreeState.getProof, MerkleTreeState.leafCount, ge_iff_le, hc]

/-! ### Commitment / note engine (`src/sdk/commitment.ts`)

The Poseidon hash over lists of field elements is an abstract parameter
`hashArr : List Nat → Nat`.  Strings are embedded as `List Char`;
JavaScript `split("-")` and `BigInt("0x" + s)` are modelled directly. -/

/-- The BN254 scalar field modulus (`FIELD_SIZE` in `commitment.ts`). -/
def FIELD_SIZE : Nat :=
  21888242871839275222246405745257275088548364400416034343698204186575808495617

/-- The TypeScript `DepositNote` record. -/
structure DepositNote where
  secret : Nat
  nullifier : Nat
  amount : Nat
  commitment : Nat
  nullifierHash : Nat
  leafIndex : Option Nat
deriving DecidableEq

/-- `computeCommitment(nullifier, secret, amount) = Poseidon([nullifier, secret, amount])`. -/
def computeCommitment (hashArr : List Nat → Nat) (nullifier secret amount : Nat) : Nat :=
  hashArr [nullifier, secret, amount]

/-- `computeNullifierHash(nullifier) = Poseidon([nullifier])`. -/
def computeNullifierHash (hashArr : List Nat → Nat) (nullifier : Nat) : Nat :=
  hashArr [nullifier]

/-- `reconstructDepositNote(secret, nullifier, amount, leafIndex?)`. -/
def reconstructDepositNote (hashArr : List Nat → Nat) (secret nullifier amount : Nat)
    (leafIndex : Option Nat) : DepositNote :=
  { secret := secret, nullifier := nullifier, amount := amount,
    commitment := computeCommitment hashArr nullifier secret amount,
    nullifierHash := computeNullifierHash hashArr nullifier,
    leafIndex := leafIndex }

/-- Lower-case hexadecimal digit characters, as produced by `toString(16)`. -/
def hexDigit (d : Nat) : Char :=
  if d < 10 then Char.ofNat (48 + d) else Char.ofNat (87 + d)

/-- Fuelled digit production for `x.toString(16)` (most significant first). -/
def toHexFuel : Nat → Nat → List Char
  | 0, _ => []
  | f + 1, x => if x = 0 then [] else toHexFuel f (x / 16) ++ [hexDigit (x % 16)]

/-- `x.toString(16)`: lower-case hex, no leading zeros, `"0"` for zero. -/
def natToHex (x : Nat) : List Char :=
  if x = 0 then ['0'] else toHexFuel x x

/-- `s.padStart(64, "0")`. -/
def padStart64 (cs : List Char) : List Char :=
  List.replicate (64 - cs.length) '0' ++ cs

/-- One hex digit of `BigInt("0x…")` (accepts both letter cases). -/
def parseHexDigit (c : Char) : Option Nat :=
  if 48 ≤ c.toNat ∧ c.toNat ≤ 57 then some (c.toNat - 48)
  else if 97 ≤ c.toNat ∧ c.toNat ≤ 102 then some (c.toNat - 87)
  else if 65 ≤ c.toNat ∧ c.toNat ≤ 70 then some (c.toNat - 55)
  else none

/-- Accumulating loop of `BigInt("0x…")`; `none` models the thrown
`SyntaxError` on a non-hex character. -/
def parseHexCore : List Char → Nat → Option Nat
  | [], acc => some acc
  | c :: cs, acc =>
    match parseHexDigit c with
    | some d => parseHexCore cs (acc * 16 + d)
    | none => none

/-- `BigInt("0x" + s)`: fails on the empty string and on non-hex characters. -/
def parseHexStr (cs : List Char) : Option Nat :=
  if cs = [] then none else parseHexCore cs 0

/-- JavaScript `s.split("-")`. -/
def splitDash : List Char → List (List Char)
  | [] => [[]]
  | c :: rest =>
    if c = '-' then [] :: splitDash rest
    else
      match splitDash rest with
      | [] => [[c]]
      | p :: ps => (c :: p) :: ps

/-- `serializeNote(note)`: `grimswap-v1-<secret:64 hex>-<nullifier:64 hex>-<amount:hex>`. -/
def serializeNote (note : DepositNote) : List Char :=
  "grimswap".toList ++ '-' :: ("v1".toList ++ '-' ::
    (padStart64 (natToHex note.secret) ++ '-' ::
      (padStart64 (natToHex note.nullifier) ++ '-' :: natToHex note.amount)))

/-- `deserializeNote(noteString)`: split on `-`, check the 5-part
`grimswap`/`v1` frame, parse the three hex fields, and rebuild the note via
`reconstructDepositNote` (without a leaf index); `none` models the thrown
errors. -/
def deserializeNote (hashArr : List Nat → Nat) (cs : List Char) : Option DepositNote :=
  match splitDash cs with
  | [p0, p1, p2, p3, p4] =>
    if p0 = "grimswap".toList ∧ p1 = "v1".toList then
      match parseHexStr p2, parseHexStr p3, parseHexStr p4 with
      | some s, some n, some a => some (reconstructDepositNote hashArr s n a none)
      | _, _, _ => none
    else none
  | _ => none

theorem parseHexDigit_hexDigit : ∀ d, d < 16 → parseHexDigit (hexDigit d) = some d := by
  decide

theorem hexDigit_ne_dash : ∀ d, d < 16 → hexDigit d ≠ '-' := by
  decide

theorem toHexFuel_mem : ∀ f x c, c ∈ toHexFuel f x → ∃ d, d < 16 ∧ c = hexDigit d
  | 0, x, c, h => by simp [toHexFuel] at h
  | f + 1, x, c, h => by
    by_cases hx : x = 0
    · simp [toHexFuel, hx] at h
    · simp only [toHexFuel, if_neg hx, List.mem_append, List.mem_singleton] at h
      rcases h with h | h
      · exact toHexFuel_mem f (x / 16) c h
      · exact ⟨x % 16, Nat.mod_lt _ (by omega), h⟩

theorem natToHex_mem (x : Nat) (c : Char) (h : c ∈ natToHex x) :
    ∃ d, d < 16 ∧ c = hexDigit d := by
  by_cases hx : x = 0
  · subst hx
    have h0 : natToHex 0 = ['0'] := rfl
    rw [h0, List.mem_singleton] at h
    exact ⟨0, by omega, by rw [h]; decide⟩
  · rw [natToHex, if_neg hx] at h
    exact toHexFuel_mem x x c h

theorem natToHex_ne_dash (x : Nat) (c : Char) (h : c ∈ natToHex x) : c ≠ '-' := by
  obtain ⟨d, hd, rfl⟩ := natToHex_mem x c h
  exact hexDigit_ne_dash d hd

theorem padStart64_ne_dash (x : Nat) (c : Char) (h : c ∈ padStart64 (natToHex x)) :
    c ≠ '-' := by
  rw [padStart64, List.mem_append] at h
  rcases h with h | h
  · rw [List.eq_of_mem_replicate h]
    decide
  · exact natToHex_ne_dash x c h

theorem natToHex_ne_nil (x : Nat) : natToHex x ≠ [] := by
  by_cases hx : x = 0
  · subst hx; decide
  · rw [natToHex, if_neg hx]
    obtain ⟨f, rfl⟩ : ∃ f, x = f + 1 := ⟨x - 1, by omega⟩
    rw [toHexFuel, if_neg hx]
    simp

theorem parseHexCore_append (a b : List Char) : ∀ acc, parseHexCore (a ++ b) acc =
    match parseHexCore a acc with
    | some r => parseHexCore b r
    | none => none := by
  induction a with
  | nil => intro acc; rfl
  | cons c a ih =>
    intro acc
    simp only [List.cons_append, parseHexCore]
    rcases parseHexDigit c with _ | d
    · rfl
    · exact ih (acc * 16 + d)

theorem parseHexCore_toHexFuel : ∀ f x acc, x ≤ f →
    parseHexCore (toHexFuel f x) acc = some (acc * 16 ^ (toHexFuel f x).length + x)
  | 0, x, acc, h => by
    have hx : x = 0 := by omega
    subst hx
    simp [toHexFuel, parseHexCore]
  | f + 1, x, acc, h => by
    by_cases hx : x = 0
    · subst hx
      simp [toHexFuel, parseHexCore]
    · have hrec : x / 16 ≤ f := by
        have := Nat.div_lt_self (by omega : 0 < x) (by omega : 1 < 16)
        omega
      simp only [toHexFuel, if_neg hx]
      rw [parseHexCore_append,
        parseHexCore_toHexFuel f (x / 16) acc hrec]
      simp only [parseHexCore, parseHexDigit_hexDigit (x % 16) (Nat.mod_lt _ (by omega)),
        List.length_append, List.length_singleton]
      refine congrArg some ?_
      rw [pow_succ]
      have e : acc * (16 ^ (toHexFuel f (x / 16)).length * 16) =
          acc * 16 ^ (toHexFuel f (x / 16)).length * 16 := by ring
      rw [e]
      omega

theorem parseHexCore_natToHex (x : Nat) : parseHexCore (natToHex x) 0 = some x := by
  by_cases hx : x = 0
  · subst hx; decide
  · rw [natToHex, if_neg hx, parseHexCore_toHexFuel x x 0 le_rfl]
    simp

theorem parseHexCore_zeros : ∀ k, parseHexCore (List.replicate k '0') 0 = some 0
  | 0 => rfl
  | k + 1 => by
    simp only [List.replicate, parseHexCore]
    have h0 : parseHexDigit '0' = some 0 := by decide
    rw [h0]
    exact parseHexCore_zeros k

theorem parseHexStr_natToHex (x : Nat) : parseHexStr (natToHex x) = some x := by
  rw [parseHexStr, if_neg (natToHex_ne_nil x)]
  exact parseHexCore_natToHex x

theorem parseHexStr_padStart64 (x : Nat) :
    parseHexStr (padStart64 (natToHex x)) = some x := by
  rw [parseHexStr, if_neg (by
    simp only [padStart64, ne_eq, List.append_eq_nil, not_and]
    intro _
    exact natToHex_ne_nil x)]
  rw [padStart64, parseHexCore_append, parseHexCore_zeros]
  exact parseHexCore_natToHex x

theorem splitDash_no_dash : ∀ cs : List Char, (∀ c ∈ cs, c ≠ '-') → splitDash cs = [cs]
  | [], _ => rfl
  | c :: rest, h => by
    have hc : c ≠ '-' := h c (by simp)
    have hrest := splitDash_no_dash rest (fun d hd => h d (by simp [hd]))
    simp [splitDash, hc, hrest]

theorem splitDash_append (a rest : List Char) (ha : ∀ c ∈ a, c ≠ '-') :
    splitDash (a ++ '-' :: rest) = a :: splitDash rest := by
  induction a with
  | nil => simp [splitDash]
  | cons c a ih =>
    have hc : c ≠ '-' := ha c (by simp)
    have ih' := ih (fun d hd => ha d (by simp [hd]))
    simp [splitDash, hc, ih']

/-- C4: for every deposit note (any secret and nullifier below the BN254
modulus, any uint256 amount, any leaf index), deserializing its
serialization reproduces the identical `secret`, `nullifier`, `amount`,
`commitment` and `nullifierHash`, while `leafIndex` is dropped. -/
theorem claim_C4_note_roundtrip (hashArr : List Nat → Nat) (s n a : Nat)
    (li : Option Nat) (hs : s < FIELD_SIZE) (hn : n < FIELD_SIZE)
    (ha : a < 2 ^ 256) :
    deserializeNote hashArr (serializeNote (reconstructDepositNote hashArr s n a li)) =
      some { reconstructDepositNote hashArr s n a li with leafIndex := none } := by
  have hg : ∀ c ∈ "grimswap".toList, c ≠ '-' := by decide
  have hv : ∀ c ∈ "v1".toList, c ≠ '-' := by decide
  have hsplit : splitDash (serializeNote (reconstructDepositNote hashArr s n a li)) =
      ["grimswap".toList, "v1".toList, padStart64 (natToHex s),
        padStart64 (natToHex n), natToHex a] := by
    simp only [serializeNote, reconstructDepositNote]
    rw [splitDash_append _ _ hg, splitDash_append _ _ hv,
      splitDash_append _ _ (padStart64_ne_dash s), splitDash_append _ _ (padStart64_ne_dash n),
      splitDash_no_dash _ (natToHex_ne_dash a)]
  simp only [deserializeNote, hsplit, and_self, if_true, parseHexStr_padStart64,
    parseHexStr_natToHex]
  rfl

/-- Witness for C4 at concrete values. -/
theorem claim_C4_witness :
    deserializeNote (fun l => l.sum)
        (serializeNote (reconstructDepositNote (fun l => l.sum) 3 4 5 (some 9))) =
      some { reconstructDepositNote (fun l => l.sum) 3 4 5 (some 9) with leafIndex := none } :=
  claim_C4_note_roundtrip (fun l => l.sum) 3 4 5 (some 9)
    (by decide) (by decide) (by decide)

/-! ### Proof formatting (`formatProofForContract`) -/

/-- The snarkjs `Groth16Proof` shape: projective G1 points (3 coordinates)
and a projective G2 point (3 coordinate pairs); coordinate entries are
opaque (`α`, decimal strings in the TypeScript code). -/
structure Groth16Proof (α : Type) where
  pi_a : α × α × α
  pi_b : (α × α) × (α × α) × (α × α)
  pi_c : α × α × α
deriving DecidableEq

/-- The Solidity-facing `ContractProof` shape. -/
structure ContractProof (α : Type) where
  pA : α × α
  pB : (α × α) × (α × α)
  pC : α × α
  pubSignals : List α
deriving DecidableEq

/-- `formatProofForContract(proof, publicSignals)`: keep the two affine
coordinates of each G1 point, swap each inner coordinate pair of the G2
point, pass the public signals through unchanged. -/
def formatProofForContract {α : Type} (proof : Groth16Proof α)
    (publicSignals : List α) : ContractProof α :=
  { pA := (proof.pi_a.1, proof.pi_a.2.1),
    pB := ((proof.pi_b.1.2, proof.pi_b.1.1), (proof.pi_b.2.1.2, proof.pi_b.2.1.1)),
    pC := (proof.pi_c.1, proof.pi_c.2.1),
    pubSignals := publicSignals }

/-- C5: on the fixed mock proof the transform yields `pA=[1,2]`,
`pB=[[5,4],[7,6]]`, `pC=[10,11]`, with the third coordinate of every point
dropped and `pubSignals` passed through unchanged. -/
theorem claim_C5_format_proof (publicSignals : List Nat) :
    formatProofForContract
        { pi_a := (1, 2, 3), pi_b := ((4, 5), (6, 7), (8, 9)), pi_c := (10, 11, 12) }
        publicSignals =
      { pA := (1, 2), pB := ((5, 4), (7, 6)), pC := (10, 11),
        pubSignals := publicSignals } := rfl

/-! ### Stealth addresses (`src/sdk/stealthAddress.ts`)

The secp256k1 subgroup generated by the base point `G` is cyclic of prime
order `N`; every point in play is a scalar multiple of `G`, so points are
represented by their discrete logarithm, an element of `ZMod N`: scalar
multiplication `k · P` becomes `k * P`, point addition becomes `+`, and `G`
is `1` (hence the public key of a private scalar `x` is `x` itself).  The
external primitives of the noble libraries are abstract parameters:

* `kec : List Nat → List Nat` — `keccak_256` over byte lists;
* `pointBytes : ZMod N → List Nat` — the byte serialization of a shared
  point produced by `getSharedSecret`;
* `addrOf : ZMod N → Nat` — `publicKeyToAddress` (drop the prefix of the
  uncompressed key, keccak, keep the low 20 bytes), as a value;
* `pointEnc : ZMod N → List Nat` — the 33-byte compressed encoding of a
  point, with `parsePoint` the noble point parser/validator
  (`ProjectivePoint.fromHex`), which fails on invalid encodings.

Hex strings are identified with the byte lists they denote (`hexToBytes`
and `bytesToHex` are mutually inverse); scalar encoding/decoding over
32-byte big-endian strings is modelled concretely. -/

/-- Big-endian byte-list value (`BigInt("0x" + bytesToHex(bs))`). -/
def bytesToNat (bs : List Nat) : Nat :=
  bs.foldl (fun acc b => acc * 256 + b) 0

/-- `k`-byte big-endian encoding of a natural number (its low `k` bytes). -/
def natToBytesAux : Nat → Nat → List Nat
  | 0, _ => []
  | k + 1, x => natToBytesAux k (x / 256) ++ [x % 256]

/-- 32-byte big-endian encoding (the private-key byte format). -/
def natToBytes32 (x : Nat) : List Nat := natToBytesAux 32 x

/-- Noble's private-key validation: 32 bytes, value in `[1, N-1]`;
failure models the exception thrown by `getSharedSecret`. -/
def parseScalar (N : Nat) (bs : List Nat) : Option (ZMod N) :=
  if bs.length = 32 ∧ 0 < bytesToNat bs ∧ bytesToNat bs < N then
    some ((bytesToNat bs : Nat) : ZMod N)
  else none

/-- `secp256k1.getSharedSecret(privBytes, pubBytes)`: validate the scalar,
parse the point, and multiply; the caller serializes the resulting point
via `pointBytes`. -/
def getSharedSecret (N : Nat) (parsePoint : List Nat → Option (ZMod N))
    (privB pubB : List Nat) : Option (ZMod N) :=
  match parseScalar N privB, parsePoint pubB with
  | some s, some P => some (s * P)
  | _, _ => none

/-- The TypeScript `StealthKeys` record (byte-list valued). -/
structure StealthKeys where
  spendingPrivateKey : List Nat
  spendingPublicKey : List Nat
  viewingPrivateKey : List Nat
  viewingPublicKey : List Nat
  stealthMetaAddress : List Nat
deriving DecidableEq

/-- `generateStealthKeys()`, applied to the two freshly drawn private
scalars; the meta-address is the concatenation of the two compressed
public keys. -/
def generateStealthKeys (N : Nat) (pointEnc : ZMod N → List Nat)
    (spendPriv viewPriv : ZMod N) : StealthKeys :=
  { spendingPrivateKey := natToBytes32 spendPriv.val,
    spendingPublicKey := pointEnc spendPriv,
    viewingPrivateKey := natToBytes32 viewPriv.val,
    viewingPublicKey := pointEnc viewPriv,
    stealthMetaAddress := pointEnc spendPriv ++ pointEnc viewPriv }

/-- `META_ADDRESS_LENGTH` from `constants.ts`. -/
def META_ADDRESS_LENGTH : Nat := 66

/-- The TypeScript `GeneratedStealthAddress` record. -/
structure GeneratedStealth where
  stealthAddress : Nat
  ephemeralPubKey : List Nat
  viewTag : Nat
deriving DecidableEq

/-- `generateStealthAddress(metaAddress)`, applied to the fresh ephemeral
private scalar: length-check the meta-address, slice out the two public
keys, compute the ECDH point `S = ephemeralPrivate · viewingPub`, hash it
(`sharedSecret = keccak(S)`), derive the scalar `h = BigInt(sharedSecret)
mod n`, form `P' = spendingPub + h·G` and its address, and take the view
tag as the first byte of `keccak(sharedSecret)`; `none` models the thrown
errors. -/
def generateStealthAddress (N : Nat) (kec : List Nat → List Nat)
    (pointBytes : ZMod N → List Nat) (addrOf : ZMod N → Nat)
    (parsePoint : List Nat → Option (ZMod N)) (pointEnc : ZMod N → List Nat)
    (meta : List Nat) (ephPriv : ZMod N) : Option GeneratedStealth :=
  if meta.length ≠ META_ADDRESS_LENGTH then none
  else
    match parsePoint ((meta.drop 33).take 33) with
    | none => none
    | some viewP =>
      let sharedSecret := kec (pointBytes (ephPriv * viewP))
      match parsePoint (meta.take 33) with
      | none => none
      | some spendP =>
        some { stealthAddress := addrOf (spendP + (bytesToNat sharedSecret : ZMod N)),
               ephemeralPubKey := pointEnc ephPriv,
               viewTag := (kec sharedSecret).headD 0 }

/-- The view-tag filter of `checkStealthAddress`: with a tag supplied, the
first byte of `keccak(sharedSecret)` must match. -/
def tagMismatch (kec : List Nat → List Nat) (sharedSecret : List Nat) :
    Option Nat → Bool
  | some t => decide ((kec sharedSecret).headD 0 ≠ t)
  | none => false

/-- The body of `checkStealthAddress` (inside its `try`): recompute the
shared secret from the recipient side, optionally short-circuit on the view
tag, recompute the expected stealth address and compare; `none` is a thrown
parse/curve error. -/
def checkStealthCore (N : Nat) (kec : List Nat → List Nat)
    (pointBytes : ZMod N → List Nat) (addrOf : ZMod N → Nat)
    (parsePoint : List Nat → Option (ZMod N))
    (ephB viewPrivB spendPubB : List Nat) (announcedAddr : Nat)
    (viewTag : Option Nat) : Option Bool :=
  match getSharedSecret N parsePoint viewPrivB ephB with
  | none => none
  | some S =>
    let sharedSecret := kec (pointBytes S)
    if tagMismatch kec sharedSecret viewTag then some false
    else
      match parsePoint spendPubB with
      | none => none
      | some spendP =>
        some (decide (addrOf (spendP + (bytesToNat sharedSecret : ZMod N)) = announcedAddr))

/-- `checkStealthAddress(...)`: the surrounding `catch` turns every thrown
error into the boolean result `false`. -/
def checkStealthAddress (N : Nat) (kec : List Nat → List Nat)
    (pointBytes : ZMod N → List Nat) (addrOf : ZMod N → Nat)
    (parsePoint : List Nat → Option (ZMod N))
    (ephB viewPrivB spendPubB : List Nat) (announcedAddr : Nat)
    (viewTag : Option Nat) : Bool :=
  (checkStealthCore N kec pointBytes addrOf parsePoint ephB viewPrivB spendPubB
    announcedAddr viewTag).getD false

/-- `deriveStealthPrivateKey(viewingPrivateKey, spendingPrivateKey,
ephemeralPubKey)`: recompute the shared secret and return
`(spendingPrivate + BigInt(sharedSecret)) mod n` (no catch: errors
propagate, hence `Option`). -/
def deriveStealthPrivateKey (N : Nat) (kec : List Nat → List Nat)
    (pointBytes : ZMod N → List Nat) (parsePoint : List Nat → Option (ZMod N))
    (viewPrivB spendPrivB ephB : List Nat) : Option Nat :=
  match getSharedSecret N parsePoint viewPrivB ephB with
  | none => none
  | some S =>
    some ((bytesToNat spendPrivB + bytesToNat (kec (pointBytes S))) % N)

/-! ### Announcement scanning (`parseMetadata`, `processAnnouncement`) -/

/-- Result of `parseMetadata`; the token address is the value of its 20
bytes. -/
structure ParsedMetadata where
  viewTag : Nat
  token : Nat
  amount : Nat
deriving DecidableEq

/-- `parseMetadata(metadata)`: `viewTag (1) || token (20) || amount (32)`;
blobs shorter than 53 bytes yield the first byte (or 0), the zero token
address and amount 0. -/
def parseMetadata (bs : List Nat) : ParsedMetadata :=
  if bs.length < 53 then
    { viewTag := bs.headD 0, token := 0, amount := 0 }
  else
    { viewTag := bs.headD 0,
      token := bytesToNat ((bs.drop 1).take 20),
      amount := bytesToNat ((bs.drop 21).take 32) }

/-- The TypeScript `StealthPayment` record (block number and transaction
hash, which come from the raw log, are omitted). -/
structure StealthPayment where
  stealthAddress : Nat
  ephemeralPubKey : List Nat
  viewTag : Nat
  token : Nat
  amount : Nat
deriving DecidableEq

/-- `processAnnouncement` after the ABI extraction of the log fields: parse
the metadata, run `checkStealthAddress` with the parsed view tag, and
report the payment on a match (`none` = skipped entry). -/
def processAnnouncement (N : Nat) (kec : List Nat → List Nat)
    (pointBytes : ZMod N → List Nat) (addrOf : ZMod N → Nat)
    (parsePoint : List Nat → Option (ZMod N)) (stealthAddr : Nat)
    (ephB metaB viewPrivB spendPubB : List Nat) : Option StealthPayment :=
  let m := parseMetadata metaB
  if checkStealthAddress N kec pointBytes addrOf parsePoint ephB viewPrivB
      spendPubB stealthAddr (some m.viewTag) then
    some { stealthAddress := stealthAddr, ephemeralPubKey := ephB,
           viewTag := m.viewTag, token := m.token, amount := m.amount }
  else none

theorem natToBytesAux_length : ∀ k x, (natToBytesAux k x).length = k
  | 0, _ => rfl
  | k + 1, x => by simp [natToBytesAux, natToBytesAux_length k (x / 256)]

theorem bytesToNat_snoc (a : List Nat) (c : Nat) :
    bytesToNat (a ++ [c]) = bytesToNat a * 256 + c := by
  simp [bytesToNat, List.foldl_append]

theorem bytesToNat_natToBytesAux : ∀ k x, x < 256 ^ k →
    bytesToNat (natToBytesAux k x) = x
  | 0, x, h => by
    have h1 : (256 : Nat) ^ 0 = 1 := pow_zero 256
    have hx : x = 0 := by omega
    subst hx
    simp [natToBytesAux, bytesToNat]
  | k + 1, x, h => by
    have hdiv : x / 256 < 256 ^ k := by
      rw [Nat.div_lt_iff_lt_mul (by omega)]
      calc x < 256 ^ (k + 1) := h
        _ = 256 ^ k * 256 := by rw [pow_succ]
    simp only [natToBytesAux]
    rw [bytesToNat_snoc, bytesToNat_natToBytesAux k (x / 256) hdiv]
    omega

theorem bytesToNat_natToBytes32 (x : Nat) (h : x < 2 ^ 256) :
    bytesToNat (natToBytes32 x) = x := by
  have h2 : (256 : Nat) ^ 32 = 2 ^ 256 := by norm_num
  rw [natToBytes32]
  exact bytesToNat_natToBytesAux 32 x (by omega)

theorem parseScalar_natToBytes32 (N : Nat) [NeZero N] (hN : N ≤ 2 ^ 256)
    (v : ZMod N) (hv : v ≠ 0) : parseScalar N (natToBytes32 v.val) = some v := by
  have hvlt : v.val < N := ZMod.val_lt v
  have hb : bytesToNat (natToBytes32 v.val) = v.val :=
    bytesToNat_natToBytes32 _ (by omega)
  have hpos : 0 < v.val := by
    have := (ZMod.val_eq_zero v).not.mpr hv
    omega
  rw [parseScalar, if_pos ⟨natToBytesAux_length 32 v.val, by rw [hb]; exact hpos,
    by rw [hb]; exact hvlt⟩, hb, ZMod.natCast_rightInverse v]

theorem getSharedSecret_eval (N : Nat) [NeZero N] (hN : N ≤ 2 ^ 256)
    (parsePoint : List Nat → Option (ZMod N)) (pointEnc : ZMod N → List Nat)
    (hround : ∀ P, parsePoint (pointEnc P) = some P) (v : ZMod N) (hv : v ≠ 0)
    (P : ZMod N) :
    getSharedSecret N parsePoint (natToBytes32 v.val) (pointEnc P) = some (v * P) := by
  rw [getSharedSecret, parseScalar_natToBytes32 N hN v hv, hround]

/-- C9: `checkStealthAddress` always returns a boolean; every parse or
curve-arithmetic failure inside the `try` (invalid viewing scalar, invalid
ephemeral point, invalid spending point) yields `false` rather than a
propagated exception. -/
theorem claim_C9_check_never_throws (N : Nat) (kec : List Nat → List Nat)
    (pointBytes : ZMod N → List Nat) (addrOf : ZMod N → Nat)
    (parsePoint : List Nat → Option (ZMod N))
    (ephB viewPrivB spendPubB : List Nat) (addr : Nat) (tag : Option Nat) :
    (checkStealthAddress N kec pointBytes addrOf parsePoint ephB viewPrivB
        spendPubB addr tag = true ∨
      checkStealthAddress N kec pointBytes addrOf parsePoint ephB viewPrivB
        spendPubB addr tag = false) ∧
    ((parseScalar N viewPrivB = none ∨ parsePoint ephB = none ∨
        parsePoint spendPubB = none) →
      checkStealthAddress N kec pointBytes addrOf parsePoint ephB viewPrivB
        spendPubB addr tag = false) := by
  constructor
  · cases hc : checkStealthAddress N kec pointBytes addrOf parsePoint ephB
      viewPrivB spendPubB addr tag
    · exact Or.inr rfl
    · exact Or.inl rfl
  · intro hfail
    rcases hfail with h | h | h
    · rcases hp : parsePoint ephB with _ | P <;>
        simp [checkStealthAddress, checkStealthCore, getSharedSecret, h, hp]
    · rcases hs : parseScalar N viewPrivB with _ | s <;>
        simp [checkStealthAddress, checkStealthCore, getSharedSecret, h, hs]
    · rcases hS : getSharedSecret N parsePoint viewPrivB ephB with _ | S
      · simp [checkStealthAddress, checkStealthCore, hS]
      · by_cases htag : tagMismatch kec (kec (pointBytes S)) tag
        · simp [checkStealthAddress, checkStealthCore, hS, htag]
        · simp [checkStealthAddress, checkStealthCore, hS, htag, h]

/-- C10: a metadata blob shorter than 53 bytes is not rejected:
`parseMetadata` returns the blob's first byte (0 when empty) as view tag,
the zero token address, and amount 0; and when the ownership check passes,
`processAnnouncement` still reports the payment with zero token and
amount. -/
theorem claim_C10_short_metadata (bs : List Nat) (hlen : bs.length < 53) :
    parseMetadata bs = { viewTag := bs.headD 0, token := 0, amount := 0 } ∧
    ∀ (N : Nat) (kec : List Nat → List Nat) (pointBytes : ZMod N → List Nat)
      (addrOf : ZMod N → Nat) (parsePoint : List Nat → Option (ZMod N))
      (stealthAddr : Nat) (ephB viewPrivB spendPubB : List Nat),
      checkStealthAddress N kec pointBytes addrOf parsePoint ephB viewPrivB
          spendPubB stealthAddr (some (bs.headD 0)) = true →
      processAnnouncement N kec pointBytes addrOf parsePoint stealthAddr ephB bs
          viewPrivB spendPubB =
        some { stealthAddress := stealthAddr, ephemeralPubKey := ephB,
               viewTag := bs.headD 0, token := 0, amount := 0 } := by
  have hm : parseMetadata bs = { viewTag := bs.headD 0, token := 0, amount := 0 } := by
    rw [parseMetadata, if_pos hlen]
  refine ⟨hm, ?_⟩
  intro N kec pointBytes addrOf parsePoint stealthAddr ephB viewPrivB spendPubB hc
  simp only [processAnnouncement, hm, hc]
  simp

theorem meta_take (N : Nat) (pointEnc : ZMod N → List Nat)
    (hlen : ∀ P, (pointEnc P).length = 33) (a b : ZMod N) :
    (pointEnc a ++ pointEnc b).take 33 = pointEnc a := by
  rw [← hlen a]
  exact List.take_left _ _

theorem meta_drop_take (N : Nat) (pointEnc : ZMod N → List Nat)
    (hlen : ∀ P, (pointEnc P).length = 33) (a b : ZMod N) :
    ((pointEnc a ++ pointEnc b).drop 33).take 33 = pointEnc b := by
  have h1 : (pointEnc a ++ pointEnc b).drop 33 = pointEnc b := by
    rw [← hlen a]
    exact List.drop_left _ _
  rw [h1, ← hlen b, List.take_length]

theorem generateStealthAddress_eval (N : Nat) (kec : List Nat → List Nat)
    (pointBytes : ZMod N → List Nat) (addrOf : ZMod N → Nat)
    (parsePoint : List Nat → Option (ZMod N)) (pointEnc : ZMod N → List Nat)
    (hlen : ∀ P, (pointEnc P).length = 33)
    (hround : ∀ P, parsePoint (pointEnc P) = some P)
    (spendP viewP ephPriv : ZMod N) :
    generateStealthAddress N kec pointBytes addrOf parsePoint pointEnc
        (pointEnc spendP ++ pointEnc viewP) ephPriv =
      some { stealthAddress := addrOf (spendP +
               (bytesToNat (kec (pointBytes (ephPriv * viewP))) : ZMod N)),
             ephemeralPubKey := pointEnc ephPriv,
             viewTag := (kec (kec (pointBytes (ephPriv * viewP)))).headD 0 } := by
  rw [generateStealthAddress,
    if_neg (by simp [META_ADDRESS_LENGTH, List.length_append, hlen]),
    meta_drop_take N pointEnc hlen spendP viewP, hround viewP,
    meta_take N pointEnc hlen spendP viewP, hround spendP]

/-- C2: the full stealth round trip.  For keys generated from fresh private
scalars, the sender-derived address is recognized by `checkStealthAddress`
run with the recipient's viewing private key; run with the viewing private
key of an independently generated key pair it returns `false`.  External
primitives are abstract: `kec ∘ pointBytes` (the shared-secret derivation)
is injective with values below the group order, and `addrOf` (the
keccak-derived address) is injective, modelling collision resistance. -/
theorem claim_C2_stealth_roundtrip (N : Nat) (hNp : N.Prime) (hN256 : N ≤ 2 ^ 256)
    (kec : List Nat → List Nat) (pointBytes : ZMod N → List Nat)
    (addrOf : ZMod N → Nat) (parsePoint : List Nat → Option (ZMod N))
    (pointEnc : ZMod N → List Nat)
    (hlen : ∀ P, (pointEnc P).length = 33)
    (hround : ∀ P, parsePoint (pointEnc P) = some P)
    (hsec_inj : Function.Injective fun P : ZMod N => bytesToNat (kec (pointBytes P)))
    (hsec_lt : ∀ P : ZMod N, bytesToNat (kec (pointBytes P)) < N)
    (haddr_inj : Function.Injective addrOf)
    (spendPriv viewPriv spendPriv₂ viewPriv₂ ephPriv : ZMod N)
    (hv : viewPriv ≠ 0) (hv₂ : viewPriv₂ ≠ 0) (hvv : viewPriv₂ ≠ viewPriv)
    (he : ephPriv ≠ 0) :
    ∃ S, generateStealthAddress N kec pointBytes addrOf parsePoint pointEnc
        (generateStealthKeys N pointEnc spendPriv viewPriv).stealthMetaAddress ephPriv
        = some S ∧
      checkStealthAddress N kec pointBytes addrOf parsePoint S.ephemeralPubKey
        (generateStealthKeys N pointEnc spendPriv viewPriv).viewingPrivateKey
        (generateStealthKeys N pointEnc spendPriv viewPriv).spendingPublicKey
        S.stealthAddress (some S.viewTag) = true ∧
      checkStealthAddress N kec pointBytes addrOf parsePoint S.ephemeralPubKey
        (generateStealthKeys N pointEnc spendPriv₂ viewPriv₂).viewingPrivateKey
        (generateStealthKeys N pointEnc spendPriv viewPriv).spendingPublicKey
        S.stealthAddress (some S.viewTag) = false := by
  haveI : Fact N.Prime := ⟨hNp⟩
  haveI : NeZero N := ⟨by have := hNp.two_le; omega⟩
  have hgen := generateStealthAddress_eval N kec pointBytes addrOf parsePoint
    pointEnc hlen hround spendPriv viewPriv ephPriv
  refine ⟨_, hgen, ?_, ?_⟩
  · simp [checkStealthAddress, checkStealthCore, generateStealthKeys,
      getSharedSecret_eval N hN256 parsePoint pointEnc hround viewPriv hv ephPriv,
      mul_comm viewPriv ephPriv, tagMismatch, hround]
  · have hS2 : viewPriv₂ * ephPriv ≠ ephPriv * viewPriv := by
      rw [mul_comm ephPriv viewPriv]
      intro hEq
      exact hvv (mul_right_cancel₀ he hEq)
    have hbne : bytesToNat (kec (pointBytes (viewPriv₂ * ephPriv))) ≠
        bytesToNat (kec (pointBytes (ephPriv * viewPriv))) :=
      fun hEq => hS2 (hsec_inj hEq)
    have hcastne : (bytesToNat (kec (pointBytes (viewPriv₂ * ephPriv))) : ZMod N) ≠
        (bytesToNat (kec (pointBytes (ephPriv * viewPriv))) : ZMod N) := by
      intro hEq
      apply hbne
      have h1 := ZMod.val_cast_of_lt (hsec_lt (viewPriv₂ * ephPriv))
      have h2 := ZMod.val_cast_of_lt (hsec_lt (ephPriv * viewPriv))
      rw [← h1, ← h2, hEq]
    have haddrne : addrOf (spendPriv +
          (bytesToNat (kec (pointBytes (viewPriv₂ * ephPriv))) : ZMod N)) ≠
        addrOf (spendPriv +
          (bytesToNat (kec (pointBytes (ephPriv * viewPriv))) : ZMod N)) := by
      intro hEq
      exact hcastne (add_left_cancel (haddr_inj hEq))
    simp only [checkStealthAddress, checkStealthCore, generateStealthKeys,
      getSharedSecret_eval N hN256 parsePoint pointEnc hround viewPriv₂ hv₂ ephPriv,
      hround]
    split
    · rfl
    · simp [haddrne]

/-- C3: `deriveStealthPrivateKey` returns `(spendingPrivate + h) mod n`
for the shared-secret scalar `h`, and the address of the public key of that
private key (the point `d · G`, i.e. the discrete logarithm `d`) equals the
announced stealth address. -/
theorem claim_C3_derive_stealth_key (N : Nat) (hN0 : 0 < N) (hN256 : N ≤ 2 ^ 256)
    (kec : List Nat → List Nat) (pointBytes : ZMod N → List Nat)
    (addrOf : ZMod N → Nat) (parsePoint : List Nat → Option (ZMod N))
    (pointEnc : ZMod N → List Nat)
    (hlen : ∀ P, (pointEnc P).length = 33)
    (hround : ∀ P, parsePoint (pointEnc P) = some P)
    (spendPriv viewPriv ephPriv : ZMod N) (hv : viewPriv ≠ 0) :
    ∃ S, generateStealthAddress N kec pointBytes addrOf parsePoint pointEnc
        (generateStealthKeys N pointEnc spendPriv viewPriv).stealthMetaAddress ephPriv
        = some S ∧
      deriveStealthPrivateKey N kec pointBytes parsePoint
        (generateStealthKeys N pointEnc spendPriv viewPriv).viewingPrivateKey
        (generateStealthKeys N pointEnc spendPriv viewPriv).spendingPrivateKey
        S.ephemeralPubKey
        = some ((spendPriv.val +
            bytesToNat (kec (pointBytes (ephPriv * viewPriv)))) % N) ∧
      addrOf (((spendPriv.val +
          bytesToNat (kec (pointBytes (ephPriv * viewPriv)))) % N : Nat) : ZMod N)
        = S.stealthAddress := by
  haveI : NeZero N := ⟨by omega⟩
  have hgen := generateStealthAddress_eval N kec pointBytes addrOf parsePoint
    pointEnc hlen hround spendPriv viewPriv ephPriv
  refine ⟨_, hgen, ?_, ?_⟩
  · simp only [generateStealthKeys, deriveStealthPrivateKey,
      getSharedSecret_eval N hN256 parsePoint pointEnc hround viewPriv hv ephPriv,
      mul_comm viewPriv ephPriv]
    rw [bytesToNat_natToBytes32 spendPriv.val (by have := ZMod.val_lt spendPriv; omega)]
  · show addrOf _ = addrOf _
    congr 1
    rw [ZMod.natCast_mod, Nat.cast_add, ZMod.natCast_rightInverse spendPriv]

/-- C6 amended: the view tag produced by `generateStealthAddress` is the
first byte of `keccak256(keccak256(S))` — keccak of the *shared secret*,
which is itself the keccak of the ECDH shared point `S` — not the first
byte of `keccak256(S)`; `checkStealthAddress` filters with the same
double-keccak derivation, returning `false` whenever the supplied tag
differs from it. -/
theorem claim_C6_amended_view_tag (N : Nat) (hN0 : 0 < N) (hN256 : N ≤ 2 ^ 256)
    (kec : List Nat → List Nat) (pointBytes : ZMod N → List Nat)
    (addrOf : ZMod N → Nat) (parsePoint : List Nat → Option (ZMod N))
    (pointEnc : ZMod N → List Nat)
    (hlen : ∀ P, (pointEnc P).length = 33)
    (hround : ∀ P, parsePoint (pointEnc P) = some P)
    (spendPriv viewPriv ephPriv : ZMod N) (hv : viewPriv ≠ 0) :
    (∀ S, generateStealthAddress N kec pointBytes addrOf parsePoint pointEnc
        (generateStealthKeys N pointEnc spendPriv viewPriv).stealthMetaAddress ephPriv
        = some S →
      S.viewTag = (kec (kec (pointBytes (ephPriv * viewPriv)))).headD 0) ∧
    ∀ t announcedAddr : Nat,
      t ≠ (kec (kec (pointBytes (ephPriv * viewPriv)))).headD 0 →
      checkStealthAddress N kec pointBytes addrOf parsePoint
        (pointEnc ephPriv) (natToBytes32 viewPriv.val) (pointEnc spendPriv)
        announcedAddr (some t) = false := by
  haveI : NeZero N := ⟨by omega⟩
  constructor
  · intro S hS
    simp only [generateStealthKeys] at hS
    rw [generateStealthAddress_eval N kec pointBytes addrOf parsePoint pointEnc
      hlen hround spendPriv viewPriv ephPriv] at hS
    rw [← Option.some.inj hS]
  · intro t announcedAddr ht
    simp only [checkStealthAddress, checkStealthCore,
      getSharedSecret_eval N hN256 parsePoint pointEnc hround viewPriv hv ephPriv,
      mul_comm viewPriv ephPriv]
    have htag : tagMismatch kec (kec (pointBytes (ephPriv * viewPriv))) (some t)
        = true := by
      rw [List.headD_eq_head?] at ht
      simp [tagMismatch, ht.symm]
    rw [htag]
    simp

/-! Concrete instantiation of the external primitives over the subgroup of
order 7, used to evaluate the stealth operations on closed inputs. -/

/-- A stand-in keccak: one output byte, the successor of the first input
byte modulo 7 (so a double application visibly differs from a single one). -/
def cKec (bs : List Nat) : List Nat := [(bs.headD 0 + 1) % 7]

/-- Stand-in shared-point serialization: the discrete logarithm as one byte. -/
def cPointBytes (P : ZMod 7) : List Nat := [P.val]

/-- Stand-in address derivation. -/
def cAddrOf (P : ZMod 7) : Nat := P.val

/-- Stand-in 33-byte compressed point encoding. -/
def cPointEnc (P : ZMod 7) : List Nat := P.val :: List.replicate 32 0

/-- Stand-in point parser: accepts exactly the 33-byte encodings. -/
def cParsePoint (bs : List Nat) : Option (ZMod 7) :=
  if bs.length = 33 then some ((bs.headD 0 : Nat) : ZMod 7) else none

/-- Witness for C2 at the concrete order-7 instantiation. -/
theorem claim_C2_witness :
    ∃ S, generateStealthAddress 7 cKec cPointBytes cAddrOf cParsePoint cPointEnc
        (generateStealthKeys 7 cPointEnc 4 3).stealthMetaAddress 2 = some S ∧
      checkStealthAddress 7 cKec cPointBytes cAddrOf cParsePoint S.ephemeralPubKey
        (generateStealthKeys 7 cPointEnc 4 3).viewingPrivateKey
        (generateStealthKeys 7 cPointEnc 4 3).spendingPublicKey
        S.stealthAddress (some S.viewTag) = true ∧
      checkStealthAddress 7 cKec cPointBytes cAddrOf cParsePoint S.ephemeralPubKey
        (generateStealthKeys 7 cPointEnc 1 5).viewingPrivateKey
        (generateStealthKeys 7 cPointEnc 4 3).spendingPublicKey
        S.stealthAddress (some S.viewTag) = false :=
  claim_C2_stealth_roundtrip 7 (by norm_num) (by norm_num) cKec cPointBytes cAddrOf
    cParsePoint cPointEnc (by decide) (by decide)
    (fun a b h => by revert a b h; decide)
    (by decide) (fun a b h => by revert a b h; decide)
    4 3 1 5 2 (by decide) (by decide) (by decide) (by decide)

/-- Witness for C3 at the concrete order-7 instantiation. -/
theorem claim_C3_witness :
    ∃ S, generateStealthAddress 7 cKec cPointBytes cAddrOf cParsePoint cPointEnc
        (generateStealthKeys 7 cPointEnc 4 3).stealthMetaAddress 2 = some S ∧
      deriveStealthPrivateKey 7 cKec cPointBytes cParsePoint
        (generateStealthKeys 7 cPointEnc 4 3).viewingPrivateKey
        (generateStealthKeys 7 cPointEnc 4 3).spendingPrivateKey
        S.ephemeralPubKey
        = some (((4 : ZMod 7).val +
            bytesToNat (cKec (cPointBytes ((2 : ZMod 7) * 3)))) % 7) ∧
      cAddrOf ((((4 : ZMod 7).val +
          bytesToNat (cKec (cPointBytes ((2 : ZMod 7) * 3)))) % 7 : Nat) : ZMod 7)
        = S.stealthAddress :=
  claim_C3_derive_stealth_key 7 (by norm_num) (by norm_num) cKec cPointBytes cAddrOf
    cParsePoint cPointEnc (by decide) (by decide) 4 3 2 (by decide)

/-- C6 counterexample: at a concrete instantiation, the view tag produced by
`generateStealthAddress` (first byte of the keccak of the shared *secret*)
differs from the first byte of the keccak of the shared *point* `S`, which
is what the claim asserts it to be. -/
theorem claim_C6_counterexample :
    (generateStealthAddress 7 cKec cPointBytes cAddrOf cParsePoint cPointEnc
        (cPointEnc 4 ++ cPointEnc 3) 2).map GeneratedStealth.viewTag ≠
      some ((cKec (cPointBytes ((2 : ZMod 7) * 3))).headD 0) := by decide

/-- Witness for the amended C6 at the concrete order-7 instantiation. -/
theorem claim_C6_witness :
    (∀ S, generateStealthAddress 7 cKec cPointBytes cAddrOf cParsePoint cPointEnc
        (generateStealthKeys 7 cPointEnc 4 3).stealthMetaAddress 2 = some S →
      S.viewTag = (cKec (cKec (cPointBytes ((2 : ZMod 7) * 3)))).headD 0) ∧
    ∀ t announcedAddr : Nat,
      t ≠ (cKec (cKec (cPointBytes ((2 : ZMod 7) * 3)))).headD 0 →
      checkStealthAddress 7 cKec cPointBytes cAddrOf cParsePoint
        (cPointEnc 2) (natToBytes32 (3 : ZMod 7).val) (cPointEnc 4)
        announcedAddr (some t) = false :=
  claim_C6_amended_view_tag 7 (by norm_num) (by norm_num) cKec cPointBytes cAddrOf
    cParsePoint cPointEnc (by decide) (by decide) 4 3 2 (by decide)

/-- Witness for C9: a malformed (empty) ephemeral key yields `false`. -/
theorem claim_C9_witness :
    checkStealthAddress 7 cKec cPointBytes cAddrOf cParsePoint []
      (natToBytes32 (3 : ZMod 7).val) (cPointEnc 4) 0 none = false :=
  (claim_C9_check_never_throws 7 cKec cPointBytes cAddrOf cParsePoint []
    (natToBytes32 (3 : ZMod 7).val) (cPointEnc 4) 0 none).2
    (Or.inr (Or.inl (by decide)))

/-- Witness for C10: a 1-byte metadata blob is parsed as view tag 1, zero
token and zero amount, and a matching announcement is still reported. -/
theorem claim_C10_witness :
    parseMetadata [1] = { viewTag := 1, token := 0, amount := 0 } ∧
    processAnnouncement 7 cKec cPointBytes cAddrOf cParsePoint 4
        (cPointEnc 2) [1] (natToBytes32 (3 : ZMod 7).val) (cPointEnc 4) =
      some { stealthAddress := 4, ephemeralPubKey := cPointEnc 2,
             viewTag := 1, token := 0, amount := 0 } :=
  ⟨(claim_C10_short_metadata [1] (by decide)).1,
    (claim_C10_short_metadata [1] (by decide)).2 7 cKec cPointBytes cAddrOf
      cParsePoint 4 (cPointEnc 2) (natToBytes32 (3 : ZMod 7).val) (cPointEnc 4)
      (by decide)⟩

end GrimSwap
